import Mathlib

/-!
Verification development for the michi Go engine (board rules kernel,
scoring, Monte-Carlo playout loop, MCTS backup and RAVE urgency).

The Python sources are shallowly embedded: the board is a flat list of
characters of length W*W (a 13x13 goban with a one-cell whitespace border
and newline column, exactly as built by `Board.empty` in board.py), and
every operation below is a direct transcription of the corresponding
Python function.  Machine integers are Nat/Int, Python floats (komi,
scores, priors) are Rat.
-/

namespace Michi

set_option maxRecDepth 1000000

/-- board.py: `N = 13`. -/
def N : Nat := 13

/-- board.py: `W = N + 2`. -/
def W : Nat := N + 2

/-- board.py: `W2 = W * W`. -/
def W2 : Nat := W * W

/-- board.py: `MAX_GAME_LEN = N * N * 3`. -/
def MAX_GAME_LEN : Nat := N * N * 3

/-- board.py: `empty = "\n".join([(N + 1) * ' '] + N * [' ' + N * '.'] + [(N + 2) * ' '])`.
The joined string, as a list of characters: a row of N+1 spaces, then N rows
of a space followed by N dots, each row preceded by the joining newline, then
a final newline and a row of N+2 spaces.  Total length W2 = 225. -/
def emptyBoard : List Char :=
  List.replicate (N + 1) ' '
    ++ (List.replicate N ('\n' :: ' ' :: List.replicate N '.')).flatten
    ++ '\n' :: List.replicate (N + 2) ' '

/-- Python string indexing `board[c]` for the in-range coordinates the engine
uses (out of range, Python would raise IndexError; we default to the border
character, a space). -/
def charAt (b : List Char) (c : Nat) : Char := b.getD c ' '

/-- board.py `Board.neighbors`: `[c - 1, c + 1, c - W, c + W]` (for on-board
coordinates all four are in range, so Nat subtraction agrees with Python). -/
def neighbors (c : Nat) : List Nat := [c - 1, c + 1, c - W, c + W]

/-- board.py `Board.diag_neighbors`: `[c - W - 1, c - W + 1, c + W - 1, c + W + 1]`. -/
def diag_neighbors (c : Nat) : List Nat := [c - W - 1, c - W + 1, c + W - 1, c + W + 1]

/-- board.py `Board.board_put`: `board[:c] + p + board[c + 1:]`.  Like the
Python slicing this appends at the end when `c` is past the end. -/
def board_put (b : List Char) (c : Nat) (p : Char) : List Char :=
  b.take c ++ p :: b.drop (c + 1)

/-- One neighbor step of the flood-fill work-list loop in board.py
`Board.floodfill`: `if byteboard[d] == p: byteboard[d] = ord('#'); fringe.append(d)`.
The extra `p ≠ '#'` test only rules out the seed-already-filled case, on which
the Python loop would never terminate. -/
def ffStep (p : Char) (st : List Char × List Nat) (d : Nat) : List Char × List Nat :=
  if st.1[d]? = some p ∧ p ≠ '#' then (st.1.set d '#', d :: st.2) else st

/-- The work-list loop of board.py `Board.floodfill`.  The fringe is a stack
(Python appends and pops at the same end).  `fuel` bounds the number of loop
iterations; every push turns a `p` cell into `'#'`, so at most `b.length`
pushes ever happen and the fuel supplied by `floodfill` is never exhausted. -/
def ffLoop (p : Char) : Nat → List Char → List Nat → List Char
  | 0, b, _ => b
  | _ + 1, b, [] => b
  | fuel + 1, b, c :: rest =>
      let st := (neighbors c).foldl (ffStep p) (b, rest)
      ffLoop p fuel st.1 st.2

/-- board.py `Board.floodfill`: replace the connected same-colored area at `c`
with `'#'`. -/
def floodfill (b : List Char) (c : Nat) : List Char :=
  let p := charAt b c
  ffLoop p (2 * b.length + 2) (b.set c '#') [c]

/-- One scan position of the `contact` regular expression from board.py
(`_initialize_board_statics`): the four alternatives `#p`, `p#`,
`#` then W-1 arbitrary characters then `p`, and `p` then W-1 arbitrary
characters then `#`, tried in this order (Python `re` alternation order at
the leftmost matching start).  Per `Board.contact`, a match starting with `p`
reports its start, otherwise the last matched character (`m.end() - 1`). -/
def contactAt (b : List Char) (p : Char) (i : Nat) : Option Nat :=
  if b[i]? = some '#' ∧ b[i + 1]? = some p then some (i + 1)
  else if b[i]? = some p ∧ b[i + 1]? = some '#' then some i
  else if b[i]? = some '#' ∧ b[i + W]? = some p then some (i + W)
  else if b[i]? = some p ∧ b[i + W]? = some '#' then some i
  else none

/-- board.py `Board.contact`: first (leftmost) regex match, or none. -/
def contact (b : List Char) (p : Char) : Option Nat :=
  (List.range b.length).findSome? (contactAt b p)

/-- Python `str.replace(old, new)` character-wise, as used on boards
(`fboard.board.replace('#', '.')` etc.). -/
def replaceAll (b : List Char) (old new : Char) : List Char :=
  b.map fun ch => if ch = old then new else ch

/-- Python `str.swapcase` on the ASCII alphabet of board characters. -/
def swapChar (ch : Char) : Char :=
  if 'a' ≤ ch ∧ ch ≤ 'z' then Char.ofNat (ch.toNat - 32)
  else if 'A' ≤ ch ∧ ch ≤ 'Z' then Char.ofNat (ch.toNat + 32)
  else ch

/-- board.py `Board.swapcase`: `Board(self.board.swapcase())`. -/
def swapcase (b : List Char) : List Char := b.map swapChar

/-- Python `str.isspace` on the two whitespace characters a board contains. -/
def isSpaceChar (ch : Char) : Bool := ch = ' ' || ch = '\n'

/-- The loop of board.py `Board.is_eyeish`, over the four neighbors, carrying
the `eyecolor` seen so far; an early `return None` and falling off the loop
with `eyecolor` still unset both produce `none`. -/
def eyeishLoop (b : List Char) : List Nat → Option Char → Option Char
  | [], eyecolor => eyecolor
  | d :: ds, eyecolor =>
      let ch := charAt b d
      if isSpaceChar ch then eyeishLoop b ds eyecolor
      else if ch = '.' then none
      else match eyecolor with
        | none => eyeishLoop b ds (some ch)
        | some e => if ch = swapChar e then none else eyeishLoop b ds (some e)

/-- board.py `Board.is_eyeish`: the single color surrounding `c`, or none. -/
def is_eyeish (b : List Char) (c : Nat) : Option Char :=
  eyeishLoop b (neighbors c) none

/-- board.py `Board.str_coord` for a non-pass coordinate:
`row, col = divmod(c - (W + 1), W); f'{chr(col + ord("A"))}{N - row}'`.
Coordinate strings are lists of characters, like boards; the f-string's
decimal rendering of the row number is `Nat.toDigits 10`. -/
def str_coord_xy (c : Nat) : List Char :=
  Char.ofNat ((c - (W + 1)) % W + 'A'.toNat) :: Nat.toDigits 10 (N - (c - (W + 1)) / W)

/-- board.py `Board.str_coord`: `'pass'` for none. -/
def str_coord (c : Option Nat) : List Char :=
  match c with
  | none => [ 'p', 'a', 's', 's' ]
  | some c => str_coord_xy c

/-- Python `int()` on the decimal digit strings the engine feeds it
(on anything else Python raises, and board.py's callers catch that). -/
def parseDec (ds : List Char) : Nat :=
  ds.foldl (fun acc d => 10 * acc + (d.toNat - '0'.toNat)) 0

/-- Python `str.upper` for the single ASCII column letter. -/
def upperChar (ch : Char) : Char :=
  if 'a' ≤ ch ∧ ch ≤ 'z' then Char.ofNat (ch.toNat - 32) else ch

/-- board.py `Board.parse_coord`:
`W + 1 + (N - int(s[1:])) * W + (ord(s[0].upper()) - ord("A"))`;
`'pass'` maps to none (on the empty string Python would raise). -/
def parse_coord (s : List Char) : Option Nat :=
  if s = [ 'p', 'a', 's', 's' ] then none
  else
    match s with
    | [] => none
    | c0 :: rest =>
        some (W + 1 + (N - parseDec rest) * W + ((upperChar c0).toNat - 'A'.toNat))

/-- position.py `Position`: board, captures pair, ply counter `n`, ko,
last two moves, komi (a Python float, embedded as a rational). -/
structure Position where
  board : List Char
  captures : Nat × Nat
  n : Nat
  ko : Option Nat
  last : Option Nat
  last2 : Option Nat
  komi : Rat
deriving DecidableEq, Repr

/-- One iteration of the capture loop in position.py `Position.move`
(lines 43-57): for a neighbor `d` of the played stone, if it holds `'x'`,
flood-fill its group (`fboard`); when the group has no `'.'` contact,
remove it, add its size (`capcount`) to the mover's capture count, and
remember single captures.  The state is `(board, capt_X, singlecaps)`. -/
def captureStep (st : List Char × Nat × List Nat) (d : Nat) : List Char × Nat × List Nat :=
  if charAt st.1 d ≠ 'x' then st
  else if contact (floodfill st.1 d) '.' ≠ none then st
  else (replaceAll (floodfill st.1 d) '#' '.',
        st.2.1 + (floodfill st.1 d).count '#',
        if (floodfill st.1 d).count '#' = 1 then st.2.2 ++ [d] else st.2.2)

/-- The board, capture count and single-capture list after `Position.move`
placed `'X'` at `c` and ran the capture loop over the four neighbors. -/
def postCapture (pos : Position) (c : Nat) : List Char × Nat × List Nat :=
  (neighbors c).foldl captureStep (board_put pos.board c 'X', pos.captures.1, [])

/-- The position `Position.move` returns on success (position.py lines
66-67): the case-swapped post-capture board, the swapped captures with the
mover's new count, `n + 1`, the ko point
(`singlecaps[0] if in_enemy_eye and len(singlecaps) == 1 else None`),
`last := c` and `last2 := ` the previous last. -/
def moveResult (pos : Position) (c : Nat) : Position :=
  { board := swapcase (postCapture pos c).1,
    captures := (pos.captures.2, (postCapture pos c).2.1),
    n := pos.n + 1,
    ko := if is_eyeish pos.board c = some 'x' ∧ (postCapture pos c).2.2.length = 1
          then (postCapture pos c).2.2.head? else none,
    last := some c, last2 := pos.last, komi := pos.komi }

/-- position.py `Position.move`: play `'X'` at `c`.  The first test is the
source's `if c == self.komi: return None` (comparing the integer coordinate
with the komi float); then come the captures and the suicide test
(`if sfboard.contact('.') is None: return None`, here a match on the
option), and the new position. -/
def Position.move (pos : Position) (c : Nat) : Option Position :=
  if (c : Rat) = pos.komi then none
  else
    match contact (floodfill (postCapture pos c).1 c) '.' with
    | none => none
    | some _ => some (moveResult pos c)

/-- position.py `Position.pass_move`: the flipped position. -/
def Position.pass_move (pos : Position) : Position :=
  { board := swapcase pos.board, captures := (pos.captures.2, pos.captures.1),
    n := pos.n + 1, ko := none, last := none, last2 := pos.last, komi := pos.komi }

/-- Python `str.find(ch, start)` restricted to success: the first index
`j ≥ start` holding `ch`, or none (Python's -1). -/
def findFrom (b : List Char) (ch : Char) (start : Nat) : Option Nat :=
  (List.range b.length).findSome? fun j =>
    if start ≤ j ∧ b[j]? = some ch then some j else none

/-- The scoring loop of position.py `Position.score` (lines 114-129): find
the next `'.'` in the ORIGINAL board after the previous index, flood-fill the
original board there, and OVERWRITE `board` with the relabeled copy (`'#'`
becomes `'X'`, `'x'` or `':'` depending on which colors the area contacts).
`fuel` bounds the iterations; the found index strictly increases, so
`b.length + 1` is always enough. -/
def scoreLoop (b : List Char) : Nat → Nat → List Char → List Char
  | 0, _, acc => acc
  | fuel + 1, i, acc =>
      match findFrom b '.' (i + 1) with
      | none => acc
      | some j =>
          let fb := floodfill b j
          let touchesX := contact fb 'X' ≠ none
          let touchesx := contact fb 'x' ≠ none
          let acc' :=
            if touchesX ∧ ¬touchesx then replaceAll fb '#' 'X'
            else if touchesx ∧ ¬touchesX then replaceAll fb '#' 'x'
            else replaceAll fb '#' ':'
          scoreLoop b fuel j acc'

/-- The final value of the `board` variable of position.py `Position.score`
when the loop exits (the original board if it held no empty point past
index 0). -/
def labelledBoard (b : List Char) : List Char :=
  scoreLoop b (b.length + 1) 0 b

/-- position.py `Position.score` (without an owner map): count of `'X'`
minus count of `'x'` over the final `board`, plus
`self.komi if self.n % 2 == 1 else -self.komi`. -/
def Position.score (pos : Position) : Rat :=
  ((labelledBoard pos.board).count 'X' : Rat) - ((labelledBoard pos.board).count 'x' : Rat)
    + (if pos.n % 2 = 1 then pos.komi else -pos.komi)

/-- The owner-map accumulation of position.py `Position.score` (lines
131-134): for each of the W*W cells, add plus-or-minus one for an `'X'` or
`'x'` on the labelled board, sign-flipped on odd plies. -/
def ownerAccum (pos : Position) (owner : Nat → Int) : Nat → Int :=
  let board := labelledBoard pos.board
  fun c =>
    if c < W * W then
      let v : Int := if charAt board c = 'X' then 1 else if charAt board c = 'x' then -1 else 0
      owner c + v * (if pos.n % 2 = 0 then 1 else -1)
    else owner c

/-- position.py `empty_position`: the initial position. -/
def emptyPosition : Position :=
  { board := emptyBoard, captures := (0, 0), n := 0, ko := none,
    last := none, last2 := none, komi := (15 : Rat) / 2 }

/-! ## The Monte-Carlo playout loop (heuristics.py `mcplayout`)

The body of the playout loop tries the suggestions of
`gen_playout_moves` in order and keeps the first legal one that survives
the randomized self-atari rejection.  That whole suggestion pipeline
(randomized heuristics, pattern tables, rejection sampling) is abstracted
here as a `policy` oracle that yields the coordinate the loop accepts, or
none when every suggestion failed (in which case the loop passes, exactly
as the source does when `pos2` stays `None`). -/

/-- The AMAF bookkeeping of heuristics.py `mcplayout` (lines 220-221):
`if amaf_map[c] == 0: amaf_map[c] = 1 if pos.n % 2 == 0 else -1`. -/
def amafUpd (amaf : Nat → Int) (c : Nat) (n : Nat) : Nat → Int :=
  if amaf c = 0 then Function.update amaf c (if n % 2 = 0 then 1 else -1) else amaf

/-- One attempt of the playout body: the policy's accepted coordinate is
played; on success the AMAF map is marked.  `none` means the loop will
pass. -/
def mcTry (policy : Position → Option Nat) (pos : Position) (amaf : Nat → Int) :
    Option (Position × (Nat → Int)) :=
  match policy pos with
  | none => none
  | some c =>
      match pos.move c with
      | none => none
      | some pos2 => some (pos2, amafUpd amaf c pos.n)

/-- heuristics.py `mcplayout` main loop:
`while passes < 2 and pos.n < MAX_GAME_LEN`, either advancing to the played
position (resetting the pass counter) or passing.  Termination: both
`move` and `pass_move` increment `n` by one, so `MAX_GAME_LEN - pos.n`
decreases. -/
def mcLoop (policy : Position → Option Nat) (pos : Position) (passes : Nat)
    (amaf : Nat → Int) : Position × (Nat → Int) :=
  if _hg : passes < 2 ∧ pos.n < MAX_GAME_LEN then
    match h : mcTry policy pos amaf with
    | some pa => mcLoop policy pa.1 0 pa.2
    | none => mcLoop policy pos.pass_move (passes + 1) amaf
  else (pos, amaf)
termination_by MAX_GAME_LEN - pos.n
decreasing_by
  · have hn : pa.1.n = pos.n + 1 := by
      unfold mcTry at h
      split at h
      · exact absurd h (by simp)
      · split at h
        · exact absurd h (by simp)
        · rename_i hmv
          have hpa := Option.some.inj h
          subst hpa
          unfold Position.move at hmv
          split at hmv
          · exact absurd hmv (by simp)
          · split at hmv
            · exact absurd hmv (by simp)
            · have h2 := Option.some.inj hmv
              subst h2
              rfl
    omega
  · simp only [Position.pass_move]
    omega

/-- heuristics.py `mcplayout`: run the loop from `pos0`, then score the final
position (accumulating the owner map) and flip the score when the start and
end ply parities differ. -/
def mcplayout (policy : Position → Option Nat) (pos0 : Position) (amaf : Nat → Int) :
    Rat × (Nat → Int) × (Nat → Int) :=
  let r := mcLoop policy pos0 0 amaf
  let owner := ownerAccum r.1 (fun _ => 0)
  let sc := r.1.score
  let sc := if pos0.n % 2 ≠ r.1.n % 2 then -sc else sc
  (sc, r.2, owner)

/-! ## The backup step (tree.py `tree_update`)

tree.py's `TreeNode` objects live on the Python heap and are mutated in
place; here the mutable statistics are a map from node identity to a
statistics record, and the fixed node/children structure traversed by
`tree_update` (the path, each node's ply parity and its children's
identities and last moves) is passed as data. -/

/-- The immutable part of a child as read by `tree_update`: its identity and
`pos.last`. -/
structure UChild where
  id : Nat
  last : Option Nat
deriving DecidableEq, Repr

/-- The immutable part of a path node as read by `tree_update`: its identity,
its `pos.n`, and its children (none = unexpanded). -/
structure UNode where
  id : Nat
  n : Nat
  children : Option (List UChild)
deriving DecidableEq, Repr

/-- The mutable counters of a tree node touched by `tree_update`. -/
structure NodeStats where
  w : Nat
  v : Nat
  aw : Nat
  av : Nat
deriving DecidableEq, Repr

/-- The statistics of every node, by node identity. -/
abbrev TreeStats : Type := Nat → NodeStats

/-- tree.py `tree_update` lines 70-76: for one child, if its coordinate was
played first by the node's to-move color (`amaf_map[child.pos.last] ==
amaf_map_value`), add `score > 0` to `aw` (as `child.aw += score > 0` does)
and 1 to `av`; `w` and `v` are untouched. -/
def childUpd (amaf : Nat → Int) (amafv : Int) (score : Rat) (child : UChild)
    (s : TreeStats) : TreeStats :=
  match child.last with
  | none => s
  | some cl =>
      if amaf cl = amafv then
        fun i =>
          if i = child.id then
            { w := (s i).w, v := (s i).v,
              aw := (s i).aw + (if 0 < score then 1 else 0),
              av := (s i).av + 1 }
          else s i
      else s

/-- tree.py `tree_update` line 65: `node.w += score < 0`; `v`, `aw`, `av`
are untouched. -/
def wUpd (nid : Nat) (score : Rat) (s : TreeStats) : TreeStats := fun i =>
  if i = nid then
    { w := (s i).w + (if score < 0 then 1 else 0), v := (s i).v,
      aw := (s i).aw, av := (s i).av }
  else s i

/-- One iteration of tree.py `tree_update`: `node.w += score < 0`, then the
AMAF update of every child (skipped when the node is unexpanded). -/
def nodeUpd (amaf : Nat → Int) (score : Rat) (node : UNode) (s : TreeStats) : TreeStats :=
  match node.children with
  | none => wUpd node.id score s
  | some cs =>
      cs.foldl
        (fun acc child =>
          childUpd amaf (if node.n % 2 = 0 then 1 else -1) score child acc)
        (wUpd node.id score s)

/-- The loop of tree.py `tree_update` over the reversed path, negating the
score between iterations. -/
def tuLoop (amaf : Nat → Int) : List UNode → Rat → TreeStats → TreeStats
  | [], _, s => s
  | node :: rest, score, s => tuLoop amaf rest (-score) (nodeUpd amaf score node s)

/-- tree.py `tree_update`: `for node in reversed(nodes): ...`. -/
def tree_update (nodes : List UNode) (amaf : Nat → Int) (score : Rat)
    (s : TreeStats) : TreeStats :=
  tuLoop amaf nodes.reverse score s

/-- Proof device for the backup-commutativity claim: add a `(w, aw, av)`
increment to a statistics record. -/
def bump (d : Nat × Nat × Nat) (r : NodeStats) : NodeStats :=
  { w := r.w + d.1, v := r.v, aw := r.aw + d.2.1, av := r.av + d.2.2 }

/-- Proof device: a statistics transformer that only adds per-node increments
that do not depend on the current statistics. -/
def Additive (f : TreeStats → TreeStats) : Prop :=
  ∃ δ : Nat → Nat × Nat × Nat, ∀ (s : TreeStats) (i : Nat), f s i = bump (δ i) (s i)

/-! ## RAVE urgency (tree_node.py) -/

/-- tree.py / tree_node.py: `PRIOR_EVEN = 10`. -/
def PRIOR_EVEN : Nat := 10

/-- Modelled from the spec: `RAVE_EQUIV` is imported from const.py, which is
not among the sources; the spec's reference value is 3500. -/
def RAVE_EQUIV : Rat := 3500

/-- The statistics fields of tree_node.py `TreeNode` (`pos` and `children`
are not read by `rave_urgency`).  `pv`/`pw` start as integers but receive
float pattern priors, so they are rationals here. -/
structure TreeNode where
  v : Nat
  w : Nat
  pv : Rat
  pw : Rat
  av : Nat
  aw : Nat

/-- tree_node.py `TreeNode.__init__`: `v = 0, w = 0, pv = PRIOR_EVEN,
pw = PRIOR_EVEN/2, av = 0, aw = 0`. -/
def TreeNode.init : TreeNode :=
  { v := 0, w := 0, pv := (PRIOR_EVEN : Rat), pw := (PRIOR_EVEN : Rat) / 2,
    av := 0, aw := 0 }

/-- Division that records a zero divisor as `none`. -/
def qdiv (a b : Rat) : Option Rat := if b = 0 then none else some (a / b)

/-- tree_node.py `TreeNode.rave_urgency` with every division checked: a
`none` result would mean the source divides by zero. -/
def rave_urgency (nd : TreeNode) : Option Rat :=
  let v : Rat := (nd.v : Rat) + nd.pv
  match qdiv ((nd.w : Rat) + nd.pw) v with
  | none => none
  | some expectation =>
      if nd.av = 0 then some expectation
      else
        match qdiv (nd.aw : Rat) (nd.av : Rat),
              qdiv (nd.av : Rat) ((nd.av : Rat) + v + v * (nd.av : Rat) / RAVE_EQUIV) with
        | some rave, some beta => some (beta * rave + (1 - beta) * expectation)
        | _, _ => none

/-- The statistics states a `TreeNode` can reach in the engine: created by
`__init__` (tree_node.py line 29), visited on descent (`v += 1`,
tree.py lines 27 and 53), given a nonnegative prior by `expand`
(tree_node.py lines 61-102), and updated by `tree_update`
(`w += score < 0`; `aw += score > 0`, `av += 1`). -/
inductive Creatable : TreeNode → Prop
  | init : Creatable TreeNode.init
  | visit {nd} : Creatable nd → Creatable { nd with v := nd.v + 1 }
  | backupWin {nd} (k : Nat) (hk : k ≤ 1) :
      Creatable nd → Creatable { nd with w := nd.w + k }
  | addPrior {nd} (qv qw : Rat) (hv : 0 ≤ qv) (hw : 0 ≤ qw) :
      Creatable nd → Creatable { nd with pv := nd.pv + qv, pw := nd.pw + qw }
  | amafStat {nd} (k : Nat) (hk : k ≤ 1) :
      Creatable nd → Creatable { nd with aw := nd.aw + k, av := nd.av + 1 }

/-! ## The Python heap, for the immutability claim

position.py `Position.move` mutates a `Board` object in place
(`board.board = fboard.board.replace('#', '.')`, line 57).  To state that
the receiver is nevertheless unchanged, the heap of `Board` objects is made
explicit: a store of board strings addressed by allocation index.  Every
operation below allocates exactly where the Python allocates a new object
and writes exactly where the Python assigns a field. -/

/-- The heap of `Board` objects: board strings by allocation index. -/
abbrev Store : Type := List (List Char)

/-- Read a `Board` object's string. -/
def getBoard (st : Store) (r : Nat) : List Char := List.getD st r []

/-- Allocate a new `Board` object, returning its address. -/
def alloc (st : Store) (b : List Char) : Store × Nat := (st ++ [b], st.length)

/-- `Position` with its board held by reference into the store. -/
structure PositionR where
  board : Nat
  captures : Nat × Nat
  n : Nat
  ko : Option Nat
  last : Option Nat
  last2 : Option Nat
  komi : Rat
deriving DecidableEq, Repr

/-- board.py `Board.board_put` on the heap: allocates the new board. -/
def board_putS (st : Store) (r : Nat) (c : Nat) (p : Char) : Store × Nat :=
  alloc st (board_put (getBoard st r) c p)

/-- board.py `Board.floodfill` on the heap: allocates the filled board. -/
def floodfillS (st : Store) (r : Nat) (c : Nat) : Store × Nat :=
  alloc st (floodfill (getBoard st r) c)

/-- board.py `Board.swapcase` on the heap: allocates the swapped board. -/
def swapcaseS (st : Store) (r : Nat) : Store × Nat :=
  alloc st (swapcase (getBoard st r))

/-- The capture loop of `Position.move` on the heap: `fboard` (the value
`floodfill (getBoard stt.1 b1) d`) is a fresh allocation, and the in-place
`board.board = fboard.board.replace('#', '.')` is a store write at the
played board's address `b1`. -/
def captureStepS (b1 : Nat) (stt : Store × Nat × List Nat) (d : Nat) :
    Store × Nat × List Nat :=
  if charAt (getBoard stt.1 b1) d ≠ 'x' then stt
  else if contact (floodfill (getBoard stt.1 b1) d) '.' ≠ none then
    ((alloc stt.1 (floodfill (getBoard stt.1 b1) d)).1, stt.2)
  else
    ((alloc stt.1 (floodfill (getBoard stt.1 b1) d)).1.set b1
        (replaceAll (floodfill (getBoard stt.1 b1) d) '#' '.'),
     stt.2.1 + (floodfill (getBoard stt.1 b1) d).count '#',
     if (floodfill (getBoard stt.1 b1) d).count '#' = 1 then stt.2.2 ++ [d]
     else stt.2.2)

/-- The allocation of the played board (`board = self.board.board_put(c, 'X')`)
followed by the capture loop, on the heap: the store and the fold state
(capture count and single-capture list).  The played board's address is
`(board_putS st pos.board c 'X').2`, which is `st.length`. -/
def playedFoldS (st : Store) (pos : PositionR) (c : Nat) : Store × Nat × List Nat :=
  (neighbors c).foldl (captureStepS (board_putS st pos.board c 'X').2)
    ((board_putS st pos.board c 'X').1, pos.captures.1, [])

/-- The suicide-test flood-fill of `Position.move` on the heap: the value of
`sfboard = board.floodfill(c)`. -/
def suicideBoardS (st : Store) (pos : PositionR) (c : Nat) : List Char :=
  floodfill (getBoard (playedFoldS st pos c).1 (board_putS st pos.board c 'X').2) c

/-- The store after the `sfboard` allocation. -/
def suicideStoreS (st : Store) (pos : PositionR) (c : Nat) : Store :=
  (alloc (playedFoldS st pos c).1 (suicideBoardS st pos c)).1

/-- The final `board.swapcase()` allocation of `Position.move` on the heap. -/
def swapAllocS (st : Store) (pos : PositionR) (c : Nat) : Store × Nat :=
  alloc (suicideStoreS st pos c)
    (swapcase (getBoard (suicideStoreS st pos c) (board_putS st pos.board c 'X').2))

/-- The `PositionR` that `moveS` returns on success. -/
def moveResultS (st : Store) (pos : PositionR) (c : Nat) : PositionR :=
  { board := (swapAllocS st pos c).2,
    captures := (pos.captures.2, (playedFoldS st pos c).2.1),
    n := pos.n + 1,
    ko := if is_eyeish (getBoard st pos.board) c = some 'x'
             ∧ (playedFoldS st pos c).2.2.length = 1
          then (playedFoldS st pos c).2.2.head? else none,
    last := some c, last2 := pos.last, komi := pos.komi }

/-- position.py `Position.move` on the heap. -/
def moveS (st : Store) (pos : PositionR) (c : Nat) : Store × Option PositionR :=
  if (c : Rat) = pos.komi then (st, none)
  else
    match contact (suicideBoardS st pos c) '.' with
    | none => (suicideStoreS st pos c, none)
    | some _ => ((swapAllocS st pos c).1, some (moveResultS st pos c))

/-- position.py `Position.pass_move` on the heap. -/
def pass_moveS (st : Store) (pos : PositionR) : Store × PositionR :=
  ((swapcaseS st pos.board).1,
   { board := (swapcaseS st pos.board).2,
     captures := (pos.captures.2, pos.captures.1),
     n := pos.n + 1, ko := none, last := none, last2 := pos.last,
     komi := pos.komi })

/-! ## Reachable positions, and the board alphabet invariant -/

/-- The characters a `Position`'s board may contain: points, the two colors,
and the border whitespace.  The transient markers `#`, `L`, `%`, `:` are not
in this set. -/
def allowedChar (ch : Char) : Bool :=
  ch = '.' || ch = 'X' || ch = 'x' || ch = ' ' || ch = '\n'

/-- Positions produced by the engine: the initial position and anything
obtained by successful `move` or by `pass_move`. -/
inductive Reachable : Position → Prop
  | base : Reachable emptyPosition
  | mv {p p' : Position} {c : Nat} : Reachable p → p.move c = some p' → Reachable p'
  | pass {p : Position} : Reachable p → Reachable p.pass_move

/-! ## Concrete inputs used by the claims -/

/-- The all-empty board with arbitrary ply counter and komi (the other fields
are irrelevant to `score`). -/
def allEmptyPos (n : Nat) (q : Rat) : Position :=
  { board := emptyBoard, captures := (0, 0), n := n, ko := none,
    last := none, last2 := none, komi := q }

/-- A position whose `ko` field is set to the empty point 112. -/
def koSetPos : Position :=
  { board := emptyBoard, captures := (0, 0), n := 2, ko := some 112,
    last := some 50, last2 := none, komi := (15 : Rat) / 2 }

/-- A position whose point 112 is occupied by an `'x'` stone. -/
def occupiedPos : Position :=
  { board := emptyBoard.set 112 'x', captures := (0, 0), n := 0, ko := none,
    last := none, last2 := none, komi := (15 : Rat) / 2 }

/-- An otherwise empty board whose corner point 16 has both on-board
neighbors (17 and 31) occupied by `'x'` stones with outside liberties:
playing `'X'` at 16 is suicide. -/
def cornerSuicidePos : Position :=
  { board := (emptyBoard.set 17 'x').set 31 'x', captures := (0, 0), n := 0,
    ko := none, last := none, last2 := none, komi := (15 : Rat) / 2 }

/-- The board full of `'X'` stones. -/
def fullXBoard : List Char := emptyBoard.map fun ch => if ch = '.' then 'X' else ch

/-- A final-looking board with two differently-owned empty regions: every
point is `'X'` except an `'x'` stone at 208, an empty point 16 whose
neighbors are all `'X'` (an X eye), and the empty region {206, 207} touching
both the `'x'` at 208 and `'X'` stones (dame). -/
def twoRegionBoard : List Char :=
  (((fullXBoard.set 208 'x').set 16 '.').set 206 '.').set 207 '.'

/-- The two-region board as a position with `n = 0` and komi 7.5. -/
def twoRegionPos : Position :=
  { board := twoRegionBoard, captures := (0, 0), n := 0, ko := none,
    last := none, last2 := none, komi := (15 : Rat) / 2 }

/-- The position after `emptyPosition.move 112`: the stone is case-swapped
to `'x'` and the ply counter is 1. -/
def afterOneMove : Position :=
  { board := emptyBoard.set 112 'x', captures := (0, 0), n := 1, ko := none,
    last := some 112, last2 := none, komi := emptyPosition.komi }

/-- A one-object heap holding the empty board. -/
def emptyStore : Store := [ emptyBoard ]

/-- The initial position as a heap reference into `emptyStore`. -/
def posR0 : PositionR :=
  { board := 0, captures := (0, 0), n := 0, ko := none, last := none,
    last2 := none, komi := (15 : Rat) / 2 }

/-! ## Basic facts about `Position.move` -/

/-- When the coordinate differs from the komi (as it always does for the
engine's float komi values), whether `move` succeeds is decided by the
suicide test alone. -/
theorem move_isSome_of_ne_komi {pos : Position} {c : Nat}
    (h : ¬((c : Rat) = pos.komi)) :
    (pos.move c).isSome = (contact (floodfill (postCapture pos c).1 c) '.').isSome := by
  unfold Position.move
  rw [if_neg h]
  cases contact (floodfill (postCapture pos c).1 c) '.' with
  | none => rfl
  | some _ => rfl

/-- When the guard does not fire and the played group keeps a liberty,
`move` returns `moveResult`. -/
theorem move_eq_some_of_contact {pos : Position} {c l : Nat}
    (h : ¬((c : Rat) = pos.komi))
    (hc : contact (floodfill (postCapture pos c).1 c) '.' = some l) :
    pos.move c = some (moveResult pos c) := by
  unfold Position.move
  rw [if_neg h, hc]

/-- If after the placement and the captures the group at `c` has no `'.'`
contact, `move` returns none (the suicide rejection; the komi guard also
only ever returns none). -/
theorem move_eq_none_of_contact {pos : Position} {c : Nat}
    (hc : contact (floodfill (postCapture pos c).1 c) '.' = none) :
    pos.move c = none := by
  unfold Position.move
  split
  · rfl
  · rw [hc]

/-- A successful `move` increments the ply counter. -/
theorem move_n {pos : Position} {c : Nat} {p' : Position}
    (h : pos.move c = some p') : p'.n = pos.n + 1 := by
  unfold Position.move at h
  split at h
  · exact absurd h (by simp)
  · split at h
    · exact absurd h (by simp)
    · have h2 := Option.some.inj h
      subst h2
      rfl

/-- A successful `move` returns the case-swapped post-capture board. -/
theorem move_board {pos : Position} {c : Nat} {p' : Position}
    (h : pos.move c = some p') : p'.board = swapcase (postCapture pos c).1 := by
  unfold Position.move at h
  split at h
  · exact absurd h (by simp)
  · split at h
    · exact absurd h (by simp)
    · have h2 := Option.some.inj h
      subst h2
      simp only [moveResult]

/-- A successful `mcTry` increments the ply counter (it plays a `move`). -/
theorem mcTry_n {policy : Position → Option Nat} {pos : Position}
    {amaf : Nat → Int} {pa : Position × (Nat → Int)}
    (h : mcTry policy pos amaf = some pa) : pa.1.n = pos.n + 1 := by
  unfold mcTry at h
  split at h
  · exact absurd h (by simp)
  · split at h
    · exact absurd h (by simp)
    · rename_i hmv
      have hpa := Option.some.inj h
      subst hpa
      exact move_n hmv

/-! ## Membership lemmas for the board operations -/

/-- `board_put` only adds the placed character. -/
theorem mem_board_put {b : List Char} {c : Nat} {p x : Char}
    (h : x ∈ board_put b c p) : x ∈ b ∨ x = p := by
  unfold board_put at h
  rcases List.mem_append.1 h with h | h
  · exact Or.inl (List.take_subset _ _ h)
  · rcases List.mem_cons.1 h with h | h
    · exact Or.inr h
    · exact Or.inl (List.drop_subset _ _ h)

/-- The flood-fill fold only writes `'#'`. -/
theorem mem_ffFold {p : Char} {b0 : List Char} (ds : List Nat) :
    ∀ (st : List Char × List Nat), (∀ x ∈ st.1, x ∈ b0 ∨ x = '#') →
      ∀ x ∈ (ds.foldl (ffStep p) st).1, x ∈ b0 ∨ x = '#' := by
  induction ds with
  | nil => intro st h x hx; exact h x hx
  | cons d ds ih =>
      intro st h x hx
      refine ih (ffStep p st d) ?_ x hx
      intro y hy
      unfold ffStep at hy
      split at hy
      · rcases List.mem_or_eq_of_mem_set hy with hy | hy
        · exact h y hy
        · exact Or.inr hy
      · exact h y hy

/-- The flood-fill loop only writes `'#'`. -/
theorem mem_ffLoop {p : Char} {b0 : List Char} :
    ∀ (fuel : Nat) (b : List Char) (fringe : List Nat),
      (∀ x ∈ b, x ∈ b0 ∨ x = '#') →
      ∀ x ∈ ffLoop p fuel b fringe, x ∈ b0 ∨ x = '#' := by
  intro fuel
  induction fuel with
  | zero => intro b fringe h x hx; exact h x (by simpa [ffLoop] using hx)
  | succ fuel ih =>
      intro b fringe h x hx
      cases fringe with
      | nil => exact h x (by simpa [ffLoop] using hx)
      | cons c rest =>
          rw [ffLoop] at hx
          exact ih _ _ (mem_ffFold (neighbors c) (b, rest) h) x hx

/-- `floodfill` only writes `'#'`. -/
theorem mem_floodfill {b : List Char} {c : Nat} {x : Char}
    (h : x ∈ floodfill b c) : x ∈ b ∨ x = '#' := by
  unfold floodfill at h
  refine mem_ffLoop _ _ _ ?_ x h
  intro y hy
  rcases List.mem_or_eq_of_mem_set hy with hy | hy
  · exact Or.inl hy
  · exact Or.inr hy

/-- `replaceAll` removes `old` and only adds `new`. -/
theorem mem_replaceAll {b : List Char} {old new x : Char}
    (h : x ∈ replaceAll b old new) : x = new ∨ (x ∈ b ∧ x ≠ old) := by
  unfold replaceAll at h
  rcases List.mem_map.1 h with ⟨y, hy, hxy⟩
  by_cases hyo : y = old
  · rw [hyo] at hxy
    simp only [if_pos rfl] at hxy
    exact Or.inl hxy.symm
  · rw [if_neg hyo] at hxy
    exact Or.inr ⟨hxy ▸ hy, hxy ▸ hyo⟩

/-- Members of `swapcase` come from members of the input. -/
theorem mem_swapcase {b : List Char} {x : Char}
    (h : x ∈ swapcase b) : ∃ y ∈ b, x = swapChar y := by
  rcases List.mem_map.1 h with ⟨y, hy, hxy⟩
  exact ⟨y, hy, hxy.symm⟩

/-- A board not containing `p` has no `p` contact. -/
theorem contact_eq_none {b : List Char} {p : Char} (h : p ∉ b) :
    contact b p = none := by
  unfold contact
  rw [List.findSome?_eq_none_iff]
  intro i _
  unfold contactAt
  split_ifs with h1 h2 h3 h4
  · exact absurd (List.getElem?_mem h1.2) h
  · exact absurd (List.getElem?_mem h2.1) h
  · exact absurd (List.getElem?_mem h3.2) h
  · exact absurd (List.getElem?_mem h4.1) h
  · rfl

/-! ## Scoring a board without stones -/

/-- The scoring loop never introduces stones on a board that has none: every
empty region of a stoneless board touches neither color, so each relabeling
writes `':'`. -/
theorem scoreLoop_no_stones {b : List Char} (hX : 'X' ∉ b) (hx : 'x' ∉ b) :
    ∀ (fuel i : Nat) (acc : List Char), 'X' ∉ acc → 'x' ∉ acc →
      'X' ∉ scoreLoop b fuel i acc ∧ 'x' ∉ scoreLoop b fuel i acc := by
  intro fuel
  induction fuel with
  | zero =>
      intro i acc haX hax
      exact ⟨by simpa [scoreLoop] using haX, by simpa [scoreLoop] using hax⟩
  | succ fuel ih =>
      intro i acc haX hax
      rw [scoreLoop]
      cases hf : findFrom b '.' (i + 1) with
      | none =>
          exact ⟨haX, hax⟩
      | some j =>
          have hfX : 'X' ∉ floodfill b j := fun hm =>
            (mem_floodfill hm).elim (fun hmem => hX hmem) (fun he => by simp at he)
          have hfx : 'x' ∉ floodfill b j := fun hm =>
            (mem_floodfill hm).elim (fun hmem => hx hmem) (fun he => by simp at he)
          have hcX : contact (floodfill b j) 'X' = none := contact_eq_none hfX
          have hcx : contact (floodfill b j) 'x' = none := contact_eq_none hfx
          simp only [hcX, hcx, ne_eq, not_true_eq_false, false_and, and_false, if_false,
            not_false_eq_true, true_and, and_true, if_true]
          refine ih j (replaceAll (floodfill b j) '#' ':') ?_ ?_
          · intro hm
            rcases mem_replaceAll hm with he | ⟨hmem, _⟩
            · simp at he
            · exact hfX hmem
          · intro hm
            rcases mem_replaceAll hm with he | ⟨hmem, _⟩
            · simp at he
            · exact hfx hmem

/-- A stoneless board stays stoneless through `labelledBoard`. -/
theorem labelledBoard_no_stones {b : List Char} (hX : 'X' ∉ b) (hx : 'x' ∉ b) :
    'X' ∉ labelledBoard b ∧ 'x' ∉ labelledBoard b := by
  unfold labelledBoard
  exact scoreLoop_no_stones hX hx _ _ _ hX hx

/-- The score of a position whose board has no stones is just the komi term:
ADDED on odd plies, subtracted on even plies. -/
theorem score_no_stones (pos : Position) (hX : 'X' ∉ pos.board) (hx : 'x' ∉ pos.board) :
    pos.score = if pos.n % 2 = 1 then pos.komi else -pos.komi := by
  unfold Position.score
  obtain ⟨h1, h2⟩ := labelledBoard_no_stones hX hx
  rw [List.count_eq_zero.2 h1, List.count_eq_zero.2 h2]
  norm_num

/-! ## The board alphabet invariant -/

/-- Case-swapping stays inside the board alphabet. -/
theorem allowed_swapChar {ch : Char} (h : allowedChar ch = true) :
    allowedChar (swapChar ch) = true := by
  simp only [allowedChar, Bool.or_eq_true, decide_eq_true_eq] at h
  rcases h with (((rfl | rfl) | rfl) | rfl) | rfl <;> decide

/-- The board after placement and captures stays inside the alphabet. -/
theorem postCapture_allowed {pos : Position} {c : Nat}
    (h : ∀ x ∈ pos.board, allowedChar x = true) :
    ∀ x ∈ (postCapture pos c).1, allowedChar x = true := by
  unfold postCapture
  have base : ∀ x ∈ board_put pos.board c 'X', allowedChar x = true := by
    intro x hx
    rcases mem_board_put hx with hx | rfl
    · exact h x hx
    · decide
  have H : ∀ (ds : List Nat) (st : List Char × Nat × List Nat),
      (∀ x ∈ st.1, allowedChar x = true) →
      ∀ x ∈ (ds.foldl captureStep st).1, allowedChar x = true := by
    intro ds
    induction ds with
    | nil => intro st hst x hx; exact hst x hx
    | cons d ds ih =>
        intro st hst x hx
        rw [List.foldl_cons] at hx
        refine ih _ ?_ x hx
        intro y hy
        unfold captureStep at hy
        split at hy
        · exact hst y hy
        · split at hy
          · exact hst y hy
          · rcases mem_replaceAll hy with rfl | ⟨hmem, hne⟩
            · decide
            · rcases mem_floodfill hmem with hmem | rfl
              · exact hst y hmem
              · exact absurd rfl hne
  exact H _ _ base

/-- `pass_move` preserves every board-level property of `swapcase`. -/
theorem pass_move_board (pos : Position) : (pos.pass_move).board = swapcase pos.board := rfl

set_option maxHeartbeats 4000000 in
/-- The board of `emptyPosition.move 112`: the suicide test finds the
liberty at 97, and the new position is `afterOneMove`. -/
theorem emptyPosition_move_112 : emptyPosition.move 112 = some afterOneMove := by
  have h1 : contact (floodfill (postCapture emptyPosition 112).1 112) '.' = some 97 := by
    decide
  rw [move_eq_some_of_contact (by norm_num [emptyPosition]) h1]
  rfl

/-! ## The playout loop ply bound -/

/-- Every iteration of `mcLoop` plays a move or passes, each of which adds a
ply, and the guard stops at `MAX_GAME_LEN`; so the final ply count never
exceeds `max pos.n MAX_GAME_LEN`. -/
theorem mcLoop_n_le (policy : Position → Option Nat) :
    ∀ (k : Nat) (pos : Position) (passes : Nat) (amaf : Nat → Int),
      MAX_GAME_LEN - pos.n ≤ k →
      (mcLoop policy pos passes amaf).1.n ≤ max pos.n MAX_GAME_LEN := by
  intro k
  induction k with
  | zero =>
      intro pos passes amaf hk
      rw [mcLoop]
      split
      · rename_i hg
        exact absurd hg.2 (by omega)
      · exact Nat.le_max_left _ _
  | succ k ih =>
      intro pos passes amaf hk
      rw [mcLoop]
      split
      · rename_i hg
        split
        · rename_i pa hpa
          have hn := mcTry_n hpa
          have hb := ih pa.1 0 pa.2 (by omega)
          omega
        · have hpn : (Position.pass_move pos).n = pos.n + 1 := rfl
          have hb := ih pos.pass_move (passes + 1) amaf (by omega)
          omega
      · exact Nat.le_max_left _ _

/-! ## `tree_update` is a sum of per-node increments -/

/-- The zero increment does nothing. -/
theorem bump_zero (r : NodeStats) : bump (0, 0, 0) r = r := by
  simp [bump]

/-- Two increments compose into their sum. -/
theorem bump_bump (d e : Nat × Nat × Nat) (r : NodeStats) :
    bump d (bump e r) = bump (d.1 + e.1, d.2.1 + e.2.1, d.2.2 + e.2.2) r := by
  simp only [bump, NodeStats.mk.injEq]
  refine ⟨by ring, trivial, by ring, by ring⟩

/-- Increments commute. -/
theorem bump_comm (d e : Nat × Nat × Nat) (r : NodeStats) :
    bump d (bump e r) = bump e (bump d r) := by
  simp only [bump, NodeStats.mk.injEq]
  refine ⟨by ring, trivial, by ring, by ring⟩

/-- Composing additive transformers is additive. -/
theorem additive_comp {f g : TreeStats → TreeStats}
    (hf : Additive f) (hg : Additive g) : Additive (fun s => g (f s)) := by
  obtain ⟨df, hdf⟩ := hf
  obtain ⟨dg, hdg⟩ := hg
  refine ⟨fun i => ((dg i).1 + (df i).1, (dg i).2.1 + (df i).2.1, (dg i).2.2 + (df i).2.2), ?_⟩
  intro s i
  show g (f s) i = bump ((dg i).1 + (df i).1, (dg i).2.1 + (df i).2.1, (dg i).2.2 + (df i).2.2) (s i)
  rw [hdg, hdf, bump_bump]

/-- The identity is additive. -/
theorem additive_id : Additive (fun s : TreeStats => s) :=
  ⟨fun _ => (0, 0, 0), fun s i => (bump_zero (s i)).symm⟩

/-- `childUpd` is additive. -/
theorem childUpd_additive (amaf : Nat → Int) (amafv : Int) (score : Rat)
    (child : UChild) : Additive (childUpd amaf amafv score child) := by
  obtain ⟨cid, cl⟩ := child
  cases cl with
  | none => exact ⟨fun _ => (0, 0, 0), fun s i => (bump_zero (s i)).symm⟩
  | some cl =>
      by_cases hm : amaf cl = amafv
      · refine ⟨fun i => if i = cid then (0, if 0 < score then 1 else 0, 1)
          else (0, 0, 0), ?_⟩
        intro s i
        show (if amaf cl = amafv then _ else s) i = _
        rw [if_pos hm]
        by_cases hi : i = cid
        · simp only [if_pos hi, bump, NodeStats.mk.injEq]
          simp
        · simp only [if_neg hi, bump_zero]
      · refine ⟨fun _ => (0, 0, 0), ?_⟩
        intro s i
        show (if amaf cl = amafv then _ else s) i = _
        rw [if_neg hm, bump_zero]

/-- The per-node `w` update of `tree_update` is additive. -/
theorem wUpd_additive (nid : Nat) (score : Rat) :
    Additive (wUpd nid score) := by
  refine ⟨fun i => if i = nid then ((if score < 0 then 1 else 0), 0, 0)
    else (0, 0, 0), ?_⟩
  intro s i
  unfold wUpd
  by_cases hi : i = nid
  · simp only [if_pos hi, bump, NodeStats.mk.injEq]
    simp
  · simp only [if_neg hi, bump_zero]

/-- The fold of `childUpd` over a children list is additive. -/
theorem foldl_childUpd_additive (amaf : Nat → Int) (amafv : Int) (score : Rat)
    (cs : List UChild) :
    Additive (fun s : TreeStats =>
      cs.foldl (fun acc child => childUpd amaf amafv score child acc) s) := by
  induction cs with
  | nil => exact additive_id
  | cons child cs ih =>
      simp only [List.foldl_cons]
      exact additive_comp (childUpd_additive amaf amafv score child) ih

/-- One `tree_update` iteration is additive. -/
theorem nodeUpd_additive (amaf : Nat → Int) (score : Rat) (node : UNode) :
    Additive (nodeUpd amaf score node) := by
  obtain ⟨nid, nn, nch⟩ := node
  cases nch with
  | none => exact wUpd_additive nid score
  | some cs =>
      have h := additive_comp (wUpd_additive nid score)
        (foldl_childUpd_additive amaf (if nn % 2 = 0 then 1 else -1) score cs)
      exact h

/-- The whole backup pass is additive. -/
theorem tuLoop_additive (amaf : Nat → Int) :
    ∀ (nodes : List UNode) (score : Rat), Additive (tuLoop amaf nodes score) := by
  intro nodes
  induction nodes with
  | nil => intro score; exact additive_id
  | cons node rest ih =>
      intro score
      have h := additive_comp (nodeUpd_additive amaf score node) (ih (-score))
      simpa only [tuLoop] using h

/-- `tree_update` is additive. -/
theorem tree_update_additive (nodes : List UNode) (amaf : Nat → Int) (score : Rat) :
    Additive (tree_update nodes amaf score) :=
  tuLoop_additive amaf nodes.reverse score

/-! ## Frame lemmas for the heap model -/

/-- Allocation leaves existing objects unchanged. -/
theorem getBoard_append {st : Store} {b : List Char} {i : Nat} (h : i < st.length) :
    getBoard (st ++ [b]) i = getBoard st i := by
  unfold getBoard
  rw [List.getD_append _ _ _ _ h]

/-- Writing one object leaves the others unchanged. -/
theorem getBoard_set_ne {st : Store} {j : Nat} {b : List Char} {i : Nat} (h : i ≠ j) :
    getBoard (st.set j b) i = getBoard st i := by
  unfold getBoard
  rw [List.getD_eq_getElem?_getD, List.getD_eq_getElem?_getD, List.getElem?_set_ne]
  exact fun he => h he.symm

/-- Frame property of a single allocation, relative to a base store. -/
theorem frame_alloc {st0 st' : Store} (b : List Char)
    (hlen : st0.length ≤ st'.length)
    (hframe : ∀ i, i < st0.length → getBoard st' i = getBoard st0 i) :
    st0.length ≤ (alloc st' b).1.length ∧
    ∀ i, i < st0.length → getBoard (alloc st' b).1 i = getBoard st0 i := by
  constructor
  · unfold alloc
    rw [List.length_append]
    omega
  · intro i hi
    unfold alloc
    rw [getBoard_append (lt_of_lt_of_le hi hlen)]
    exact hframe i hi

/-- Frame property of one capture-loop step: it allocates and writes only at
`b1`, which is outside the base store. -/
theorem frame_captureStepS {st0 : Store} {b1 : Nat} (hb : st0.length ≤ b1)
    (stt : Store × Nat × List Nat) (d : Nat)
    (hlen : st0.length ≤ stt.1.length)
    (hframe : ∀ i, i < st0.length → getBoard stt.1 i = getBoard st0 i) :
    st0.length ≤ (captureStepS b1 stt d).1.length ∧
    ∀ i, i < st0.length → getBoard (captureStepS b1 stt d).1 i = getBoard st0 i := by
  unfold captureStepS
  split
  · exact ⟨hlen, hframe⟩
  · split
    · exact frame_alloc _ hlen hframe
    · have ha := frame_alloc (floodfill (getBoard stt.1 b1) d) hlen hframe
      constructor
      · rw [List.length_set]
        exact ha.1
      · intro i hi
        rw [getBoard_set_ne (show i ≠ b1 by omega)]
        exact ha.2 i hi

/-- Frame property of the played-board allocation and the capture loop. -/
theorem frame_playedFoldS (st : Store) (pos : PositionR) (c : Nat) :
    st.length ≤ (playedFoldS st pos c).1.length ∧
    ∀ i, i < st.length → getBoard (playedFoldS st pos c).1 i = getBoard st i := by
  unfold playedFoldS
  have hb : st.length ≤ (board_putS st pos.board c 'X').2 := le_rfl
  have H : ∀ (ds : List Nat) (stt : Store × Nat × List Nat),
      st.length ≤ stt.1.length →
      (∀ i, i < st.length → getBoard stt.1 i = getBoard st i) →
      st.length ≤ (ds.foldl (captureStepS (board_putS st pos.board c 'X').2) stt).1.length ∧
      ∀ i, i < st.length →
        getBoard (ds.foldl (captureStepS (board_putS st pos.board c 'X').2) stt).1 i
          = getBoard st i := by
    intro ds
    induction ds with
    | nil => intro stt h1 h2; exact ⟨h1, h2⟩
    | cons d ds ih =>
        intro stt h1 h2
        rw [List.foldl_cons]
        have hstep := frame_captureStepS hb stt d h1 h2
        exact ih _ hstep.1 hstep.2
  refine H _ _ ?_ ?_
  · unfold board_putS alloc
    rw [List.length_append]
    omega
  · intro i hi
    unfold board_putS alloc
    exact getBoard_append hi

/-- Frame property of the store after the suicide flood-fill allocation. -/
theorem frame_suicideStoreS (st : Store) (pos : PositionR) (c : Nat) :
    st.length ≤ (suicideStoreS st pos c).length ∧
    ∀ i, i < st.length → getBoard (suicideStoreS st pos c) i = getBoard st i := by
  unfold suicideStoreS
  have hp := frame_playedFoldS st pos c
  exact frame_alloc _ hp.1 hp.2

/-- Frame property of the final swapcase allocation. -/
theorem frame_swapAllocS (st : Store) (pos : PositionR) (c : Nat) :
    st.length ≤ (swapAllocS st pos c).1.length ∧
    ∀ i, i < st.length → getBoard (swapAllocS st pos c).1 i = getBoard st i := by
  unfold swapAllocS
  have hs := frame_suicideStoreS st pos c
  exact frame_alloc _ hs.1 hs.2

/-- Frame property of the whole heap-level `move`. -/
theorem frame_moveS (st : Store) (pos : PositionR) (c : Nat) (i : Nat)
    (h : i < st.length) : getBoard (moveS st pos c).1 i = getBoard st i := by
  unfold moveS
  split
  · rfl
  · split
    · exact (frame_suicideStoreS st pos c).2 i h
    · exact (frame_swapAllocS st pos c).2 i h

/-! ## The RAVE urgency invariant -/

/-- In every engine-created node, `pv` keeps its initial prior value as a
lower bound: priors are only ever added and they are nonnegative. -/
theorem creatable_pv {nd : TreeNode} (h : Creatable nd) : (PRIOR_EVEN : Rat) ≤ nd.pv := by
  induction h with
  | init => simp [TreeNode.init]
  | visit _ ih => simpa using ih
  | backupWin k hk _ ih => simpa using ih
  | addPrior qv qw hv hw _ ih =>
      show (PRIOR_EVEN : Rat) ≤ _ + qv
      linarith
  | amafStat k hk _ ih => simpa using ih

/-! ## The claims -/

set_option maxHeartbeats 8000000 in
/-- C1: position.py line 34 reads `if c == self.komi: return None` where the
spec requires `c == self.ko`.  The integer coordinate never equals the float
komi, so the ko guard never fires: at a position whose stored ko is the empty
point 112, playing 112 returns a new position instead of none. -/
theorem C1_move_at_ko_succeeds :
    koSetPos.ko = some 112 ∧ (koSetPos.move 112).isSome = true := by
  refine ⟨rfl, ?_⟩
  rw [move_isSome_of_ne_komi (by norm_num [koSetPos])]
  decide

set_option maxHeartbeats 64000000 in
/-- C2: `Position.score` rescans `self.board` and OVERWRITES its local
`board` with each region's relabeling, so only the empty region scanned last
survives.  On `twoRegionBoard` (165 X stones after labeling, one x stone, an
X-owned eye at 16 and a dame region {206, 207}) the returned score is
165 − 1 − 7.5 = 156.5 = 313/2, the eye at 16 stays `'.'` (unlabelled) while
the dame region got `':'`; labeling every region as the claim states would
count the eye as `'X'` and give 157.5. -/
theorem C2_score_last_region_only :
    twoRegionPos.score = 313 / 2 ∧
    charAt (labelledBoard twoRegionBoard) 16 = '.' ∧
    charAt (labelledBoard twoRegionBoard) 206 = ':' := by
  have hX : (labelledBoard twoRegionBoard).count 'X' = 165 := by decide
  have hx : (labelledBoard twoRegionBoard).count 'x' = 1 := by decide
  refine ⟨?_, by decide, by decide⟩
  unfold Position.score
  rw [show twoRegionPos.board = twoRegionBoard from rfl, hX, hx]
  norm_num [twoRegionPos]

/-- C3 counterexample: on the all-empty board with komi 7.5 and odd ply
count 1, `score` returns +7.5, not −7.5 as the claim states: the source adds
komi on odd plies (`komi = self.komi if self.n % 2 == 1 else -self.komi`). -/
theorem C3_counterexample :
    (allEmptyPos 1 ((15 : Rat) / 2)).score ≠ -((15 : Rat) / 2) := by
  have h := score_no_stones (allEmptyPos 1 ((15 : Rat) / 2)) (by decide) (by decide)
  rw [h]
  norm_num [allEmptyPos]

/-- C3 amended: `score` is count('X') − count('x') plus komi with komi ADDED
on odd plies and subtracted on even plies; on the all-empty board both counts
are 0 (the single empty region touches no color and is labelled `':'`), so
the score is exactly the signed komi — in particular +7.5 for komi 7.5 at
odd ply. -/
theorem C3_amended_komi_added_on_odd (n : Nat) (q : Rat) :
    (allEmptyPos n q).score = if n % 2 = 1 then q else -q := by
  have hX : 'X' ∉ emptyBoard := by decide
  have hx : 'x' ∉ emptyBoard := by decide
  exact score_no_stones (allEmptyPos n q) hX hx

set_option maxHeartbeats 8000000 in
/-- C4 counterexample: `move` never tests whether the target point is
occupied: at a position whose point 112 holds an `'x'` stone, `move 112`
overwrites the stone and returns a new position instead of none. -/
theorem C4_counterexample_occupied_move_succeeds :
    charAt occupiedPos.board 112 = 'x' ∧ (occupiedPos.move 112).isSome = true := by
  refine ⟨by decide, ?_⟩
  rw [move_isSome_of_ne_komi (by norm_num [occupiedPos])]
  decide

/-- C4 amended: `move` returns none when, after placing `'X'` at `c` and
resolving the captures, the group containing `c` has no `'.'` contact (the
suicide test; the komi guard also only ever produces none); occupied or
off-board coordinates are not otherwise rejected. -/
theorem C4_amended_suicide_rejected (pos : Position) (c : Nat)
    (h : contact (floodfill (postCapture pos c).1 c) '.' = none) :
    pos.move c = none := by
  unfold Position.move
  split
  · rfl
  · rw [h]

set_option maxHeartbeats 8000000 in
/-- C4 witness: playing the corner point 16, whose on-board neighbors hold
`'x'` stones with outside liberties, is suicide and is rejected. -/
theorem C4_amended_suicide_rejected_witness :
    contact (floodfill (postCapture cornerSuicidePos 16).1 16) '.' = none ∧
    cornerSuicidePos.move 16 = none :=
  ⟨by decide, C4_amended_suicide_rejected cornerSuicidePos 16 (by decide)⟩

/-- C5: `str_coord` spells column index 8 as `'I'` (it uses
`chr(col + ord('A'))`), and `parse_coord` inverts it, so the ninth column is
lettered I, not J: coordinate 24 (column 9, row 13) renders as "I13". -/
theorem C5_column_letter_I_used :
    str_coord (some 24) = [ 'I', '1', '3' ] ∧
    parse_coord [ 'I', '1', '3' ] = some 24 :=
  ⟨by decide, by decide⟩

/-- C6: the playout loop runs only until two consecutive passes or until the
ply counter reaches MAX_GAME_LEN = 3·N²; every iteration adds exactly one
ply (a move or a pass), so from the empty position the final ply count —
hence the number of loop iterations — is at most 3·N², for any
move-suggestion policy and AMAF map. -/
theorem C6_mcplayout_ply_bound (policy : Position → Option Nat) (amaf : Nat → Int) :
    (mcLoop policy emptyPosition 0 amaf).1.n ≤ 3 * N * N ∧
    ∀ (pos : Position) (passes : Nat) (amaf' : Nat → Int),
      (mcLoop policy pos passes amaf').1.n ≤ max pos.n MAX_GAME_LEN := by
  constructor
  · have h := mcLoop_n_le policy MAX_GAME_LEN emptyPosition 0 amaf (by omega)
    have h2 : max emptyPosition.n MAX_GAME_LEN = MAX_GAME_LEN := by
      simp [emptyPosition]
    rw [h2] at h
    have h3 : MAX_GAME_LEN = 3 * N * N := by norm_num [MAX_GAME_LEN, N]
    omega
  · intro pos passes amaf'
    exact mcLoop_n_le policy (MAX_GAME_LEN - pos.n) pos passes amaf' le_rfl

/-- C7: every position reachable from the empty position through `move` and
`pass_move` has a board over the alphabet `.`, `X`, `x`, space, newline; in
particular the transient markers `#`, `L`, `%`, `:` (which are outside that
alphabet) never appear. -/
theorem C7_board_alphabet (p : Position) (h : Reachable p) :
    p.board.all allowedChar = true := by
  induction h with
  | base => decide
  | mv hr hmv ih =>
      rw [List.all_eq_true] at ih ⊢
      rw [move_board hmv]
      intro x hx
      rcases mem_swapcase hx with ⟨y, hy, rfl⟩
      exact allowed_swapChar (postCapture_allowed ih y hy)
  | pass hr ih =>
      rw [List.all_eq_true] at ih ⊢
      rw [pass_move_board]
      intro x hx
      rcases mem_swapcase hx with ⟨y, hy, rfl⟩
      exact allowed_swapChar (ih y hy)

/-- C7 witness: the position reached by one move from the empty position
satisfies the alphabet invariant. -/
theorem C7_board_alphabet_witness : afterOneMove.board.all allowedChar = true :=
  C7_board_alphabet afterOneMove (Reachable.mv Reachable.base emptyPosition_move_112)

/-- C8: `tree_update` only ADDS increments that are independent of the
current statistics (and never touches `v`), so applying two completed
playout results (each a path, an AMAF map and a score) in either order
yields identical `w`/`v`/`aw`/`av` statistics on every node. -/
theorem C8_tree_update_commutes (nodes1 : List UNode) (amaf1 : Nat → Int)
    (score1 : Rat) (nodes2 : List UNode) (amaf2 : Nat → Int) (score2 : Rat)
    (s : TreeStats) :
    tree_update nodes1 amaf1 score1 (tree_update nodes2 amaf2 score2 s)
      = tree_update nodes2 amaf2 score2 (tree_update nodes1 amaf1 score1 s) := by
  obtain ⟨d1, h1⟩ := tree_update_additive nodes1 amaf1 score1
  obtain ⟨d2, h2⟩ := tree_update_additive nodes2 amaf2 score2
  funext i
  rw [h1, h2, h2, h1, bump_comm]

/-- C9: through the heap model, `move` and `pass_move` leave the receiver
unchanged (the only in-place write of `move` targets the freshly allocated
played board), and `board_put`, `floodfill` and `swapcase` only allocate:
every pre-existing board string is untouched. -/
theorem C9_receiver_unchanged (st : Store) (pos : PositionR) (c r : Nat)
    (p : Char) (i : Nat) (h : i < st.length) :
    getBoard (moveS st pos c).1 i = getBoard st i ∧
    getBoard (pass_moveS st pos).1 i = getBoard st i ∧
    getBoard (board_putS st r c p).1 i = getBoard st i ∧
    getBoard (floodfillS st r c).1 i = getBoard st i ∧
    getBoard (swapcaseS st r).1 i = getBoard st i := by
  refine ⟨frame_moveS st pos c i h, ?_, ?_, ?_, ?_⟩
  · unfold pass_moveS swapcaseS alloc
    exact getBoard_append h
  · unfold board_putS alloc
    exact getBoard_append h
  · unfold floodfillS alloc
    exact getBoard_append h
  · unfold swapcaseS alloc
    exact getBoard_append h

/-- C9 witness: after playing 112 from the one-object heap, the original
board object is unchanged. -/
theorem C9_receiver_unchanged_witness :
    getBoard (moveS emptyStore posR0 112).1 0 = getBoard emptyStore 0 :=
  (C9_receiver_unchanged emptyStore posR0 112 0 'X' 0 (by decide)).1

/-- C10: `rave_urgency` never divides by zero on an engine-created node:
the divisor `v + pv` is positive because `pv` starts at PRIOR_EVEN = 10 and
only grows, `v` is a visit count; the AMAF ratio `aw/av` and the beta
denominator are only evaluated under the `av != 0` guard, where they are
nonzero as well. -/
theorem C10_rave_urgency_total (nd : TreeNode) (h : Creatable nd) :
    (rave_urgency nd).isSome = true := by
  have hpv := creatable_pv h
  have h10 : (10 : Rat) ≤ nd.pv := by
    simpa [PRIOR_EVEN] using hpv
  have hv0 : (0 : Rat) ≤ (nd.v : Rat) := Nat.cast_nonneg _
  have hvpos : (0 : Rat) < (nd.v : Rat) + nd.pv := by linarith
  by_cases hav : nd.av = 0
  · simp [rave_urgency, qdiv, hvpos.ne', hav]
  · have havQ : ((nd.av : Rat)) ≠ 0 := Nat.cast_ne_zero.mpr hav
    have hav0 : (0 : Rat) ≤ (nd.av : Rat) := Nat.cast_nonneg _
    have hbeta : (0 : Rat) <
        (nd.av : Rat) + ((nd.v : Rat) + nd.pv)
          + ((nd.v : Rat) + nd.pv) * (nd.av : Rat) / RAVE_EQUIV := by
      have h3 : (0 : Rat) ≤ ((nd.v : Rat) + nd.pv) * (nd.av : Rat) / RAVE_EQUIV := by
        apply div_nonneg
        · exact mul_nonneg (by linarith) hav0
        · norm_num [RAVE_EQUIV]
      have hav1 : (0 : Rat) < (nd.av : Rat) := lt_of_le_of_ne hav0 (Ne.symm havQ)
      linarith
    simp [rave_urgency, qdiv, hvpos.ne', hav, havQ, hbeta.ne']

/-- C10 witness: the freshly initialized node has a defined urgency. -/
theorem C10_rave_urgency_total_witness :
    (rave_urgency TreeNode.init).isSome = true :=
  C10_rave_urgency_total TreeNode.init Creatable.init

end Michi
